import Mathlib

/-!
# Dashel: a verification development of `dashel.h`

Shallow embedding of the public interface of Dashel (error causes, the `Stream`
base class with its typed read/write helpers, the `Hub` and its extension
points), followed by the properties proved about it.

Conventions of the embedding
* a byte is a `Fin 256`; an object of a fixed-width plain-data type `T` is its
  object representation, `sizeof(T)` bytes in memory order (`Obj n`);
* a pure virtual member function is a field of a table of operations
  (`StreamOps`), the state of the concrete sub-class being a type parameter;
* a C++ exception is the `error` case of `Except DashelException`;
* every dispatch to a raw virtual operation is recorded in a list of calls, so
  that "performs exactly one call" is a statement about that list;
* the body of an extension point of the `Hub` is the list of operations it
  performs on the Hub and its streams; the invocations of the extension points
  and the calls of `stop()` are recorded in a history of events;
* an object passed or returned by value keeps its value bytes; its padding
  bytes, if its type has any, are those of the memory it is built in;
* `dashel.h` declares `Stream::fail`, `Hub::closeStream`, `Hub::step`,
  `Hub::stop` and documents the syntax of targets, but defines none of them:
  these parts are modelled from the specification, and each such definition
  says so.
-/

namespace Dashel

/-! ## Error causes (`DashelException::Source`) -/

/-- The different exception causes, in declaration order. -/
inductive Source where
  | Unknown
  | SyncError
  | InvalidTarget
  | InvalidOperation
  | ConnectionLost
  | IOError
  | ConnectionFailed
  | EnumerationError
  | PreviousIncomingDataNotRead
  deriving DecidableEq, Repr

/-- The numeric value of an enumerator: a C++ enumeration without initialisers
numbers its enumerators from 0 in declaration order. -/
def Source.toNat : Source → Nat
  | .Unknown => 0
  | .SyncError => 1
  | .InvalidTarget => 2
  | .InvalidOperation => 3
  | .ConnectionLost => 4
  | .IOError => 5
  | .ConnectionFailed => 6
  | .EnumerationError => 7
  | .PreviousIncomingDataNotRead => 8

/-- The enumerators of `Source`, in declaration order. -/
def Source.all : List Source :=
  [.Unknown, .SyncError, .InvalidTarget, .InvalidOperation, .ConnectionLost,
   .IOError, .ConnectionFailed, .EnumerationError, .PreviousIncomingDataNotRead]

/-- Identity of a stream object (`Stream*`). -/
abbrev StreamPtr := Nat

/-- The one size fits all exception for streams (data members of
`DashelException`). -/
structure DashelException where
  /-- The exception cause. -/
  source : Source
  /-- The reason as an OS error code. -/
  sysError : Int
  /-- The reason as a human readable string according to the OS. -/
  sysMessage : String
  /-- The reason as a human readable string. -/
  reason : String
  /-- The stream that caused the exception to be thrown (`NULL` is `none`). -/
  stream : Option StreamPtr
  deriving DecidableEq, Repr

/-! ## The `Stream` base class -/

/-- Data members of the `Stream` base class. -/
structure Stream where
  /-- A flag indicating that the stream has failed. -/
  failedFlag : Bool
  /-- The human readable reason describing why the stream has failed. -/
  failReason : String
  /-- The target name. -/
  targetName : String
  deriving DecidableEq, Repr

/-- Constructor `Stream(const std::string& targetName)`: the body assigns
`targetName` and clears `failedFlag`; `failReason` is a `std::string` member
without initialiser, hence default-constructed (empty). -/
def Stream.new (targetName : String) : Stream :=
  { failedFlag := false, failReason := "", targetName := targetName }

/-- Query failed state of stream: `failed() const { return failedFlag; }`. -/
def Stream.failed (s : Stream) : Bool := s.failedFlag

/-- Returns the reason the stream has failed:
`getFailReason() const { return failReason; }`. -/
def Stream.getFailReason (s : Stream) : String := s.failReason

/-- Returns the name of the target:
`getTargetName() const { return targetName; }`. -/
def Stream.getTargetName (s : Stream) : String := s.targetName

/-- One byte of memory. -/
abbrev Byte := Fin 256

/-- An object of a fixed-width plain-data type `T` with `sizeof(T) = n`: its
object representation, the `n` bytes it occupies, in memory order. -/
structure Obj (n : Nat) where
  /-- The bytes of the object, lowest address first. -/
  bytes : List Byte
  /-- The object occupies exactly `sizeof(T)` bytes. -/
  size_eq : bytes.length = n

/-- The pure virtual member functions of `Stream`, as implemented by a concrete
sub-class whose state is `σ`.

* `write s data size` is `write(const void *data, const size_t size)`; `data`
  is the content of the memory the pointer designates;
* `flush s` is `flush()`;
* `read s size` is `read(void *data, size_t size)`; on normal return it yields
  the bytes it stored at `data`, lowest address first.

A thrown `DashelException` is the `error` case. -/
structure StreamOps (σ : Type) where
  /-- Raw `write(data, size)`. -/
  write : σ → List Byte → Nat → Except DashelException σ
  /-- Raw `flush()`. -/
  flush : σ → Except DashelException σ
  /-- Raw `read(data, size)`. -/
  read : σ → Nat → Except DashelException (List Byte × σ)

/-- A call of a raw virtual operation, with its arguments. -/
inductive RawCall where
  | write (data : List Byte) (size : Nat)
  | flush
  | read (size : Nat)
  deriving DecidableEq, Repr

/-- What running a member function does: the raw virtual calls it performed, in
order, and how it ended (normal return with a value, or a thrown exception). -/
structure Run (α : Type) where
  /-- The raw calls performed. -/
  calls : List RawCall
  /-- The value returned or the exception thrown. -/
  result : Except DashelException α

/-- Virtual dispatch of `write(data, size)`. -/
def Stream.write {σ : Type} (ops : StreamOps σ) (s : σ) (data : List Byte) (size : Nat) :
    Run σ :=
  { calls := [RawCall.write data size], result := ops.write s data size }

/-- Virtual dispatch of `read(data, size)`. -/
def Stream.read {σ : Type} (ops : StreamOps σ) (s : σ) (size : Nat) :
    Run (List Byte × σ) :=
  { calls := [RawCall.read size], result := ops.read s size }

/-- Content of a memory region that held `old` after `stored` has been written
from its first byte on (the region keeps its size). -/
def store (old stored : List Byte) : List Byte :=
  (stored ++ old.drop stored.length).take old.length

/-- The object `v` after `read(&v, sizeof(T))` stored `stored` into it. -/
def Obj.store {n : Nat} (v : Obj n) (stored : List Byte) : Obj n :=
  { bytes := Dashel.store v.bytes stored
    size_eq := by
      have h := v.size_eq
      unfold Dashel.store
      rw [List.length_take, List.length_append, List.length_drop]
      omega }

/-- The padding of a type `T`: the offsets, among its `sizeof(T)` bytes, of the
bytes that are padding and hold no part of the value (none for the integer
types; bytes 10 to 15 of a `long double` of 16 bytes). -/
abbrev Padding := Nat → Bool

/-- The padding of a type without padding bytes. -/
def noPadding : Padding := fun _ => false

/-- Bytes of an object initialised by value from the bytes `src`, from offset
`i` on: a value byte is the byte of the source; a padding byte is not carried
by a copy by value and is whatever the destination `dst` holds there. -/
def copyValueFrom (pad : Padding) (i : Nat) : List Byte → List Byte → List Byte
  | a :: src, b :: dst => (if pad i then b else a) :: copyValueFrom pad (i + 1) src dst
  | _, _ => []

/-- Length of a copy by value between two objects of the same size. -/
def copyValueFrom_length (pad : Padding) :
    ∀ (src dst : List Byte) (i : Nat), src.length = dst.length →
      (copyValueFrom pad i src dst).length = src.length
  | [], _, _, _ => rfl
  | _ :: _, [], _, h => by cases h
  | _ :: src, _ :: dst, i, h => by
    simp only [copyValueFrom, List.length_cons]
    rw [copyValueFrom_length pad src dst (i + 1) (by simpa using h)]

/-- Initialisation of an object of type `T` by value from the object `src` (an
argument passed by value, `return v`): the result has the value bytes of `src`;
its padding bytes are indeterminate, here those of `dst`, the content of the
memory it is built in. -/
def Obj.copyValue {n : Nat} (pad : Padding) (src dst : Obj n) : Obj n :=
  { bytes := copyValueFrom pad 0 src.bytes dst.bytes
    size_eq := by
      rw [copyValueFrom_length pad src.bytes dst.bytes 0 (by rw [src.size_eq, dst.size_eq])]
      exact src.size_eq }

/-- Write a variable of basic type to the stream:
`template<typename T> void write(T v) { write(&v, sizeof(T)); }`.
Here `v` is the parameter of the helper, as its body finds it. -/
def Stream.writeT {σ : Type} (ops : StreamOps σ) {n : Nat} (s : σ) (v : Obj n) : Run σ :=
  Stream.write ops s v.bytes n

/-- The call `write<T>(x)`: the parameter `v` of `write(T v)` is initialised by
value from the argument `x`, in memory that holds `param` beforehand; then the
body runs. -/
def Stream.callWriteT {σ : Type} (ops : StreamOps σ) (pad : Padding) {n : Nat} (s : σ)
    (x param : Obj n) : Run σ :=
  Stream.writeT ops s (Obj.copyValue pad x param)

/-- Read a variable of basic type from the stream:
`template<typename T> T read() { T v; read(&v, sizeof(T)); return v; }`.
The local `v` is not initialised: `uninit` is whatever its memory holds before
the raw read. `return v` initialises the result by value from `v`, in memory
that holds `ret` beforehand. If the raw read throws, so does the helper. -/
def Stream.readT {σ : Type} (ops : StreamOps σ) (pad : Padding) {n : Nat} (s : σ)
    (uninit ret : Obj n) : Run (Obj n × σ) :=
  let r := Stream.read ops s n
  { calls := r.calls
    result :=
      match r.result with
      | .error e => .error e
      | .ok (stored, s1) => .ok (Obj.copyValue pad (uninit.store stored) ret, s1) }

/-- The padding of a `long double` of 16 bytes whose value is an x87 extended
number of 10 bytes: bytes 10 to 15. -/
def longDoublePadding : Padding := fun i => decide (10 ≤ i)

/-- A `long double` object whose six padding bytes hold `aa` (hexadecimal). -/
def sampleLongDouble : Obj 16 :=
  { bytes := [1, 2, 3, 4, 5, 6, 7, 8, 9, 10, 0xaa, 0xaa, 0xaa, 0xaa, 0xaa, 0xaa]
    size_eq := rfl }

/-- Sixteen bytes of zeroed memory. -/
def zeroed16 : Obj 16 :=
  { bytes := [0, 0, 0, 0, 0, 0, 0, 0, 0, 0, 0, 0, 0, 0, 0, 0]
    size_eq := rfl }

/-- The documented contract of the raw `read(data, size)`: "reads all requested
data from the stream [...] or some error occurs", errors being signalled by an
exception. A normal return has stored exactly `size` bytes. -/
def RawReadContract {σ : Type} (ops : StreamOps σ) : Prop :=
  ∀ (s : σ) (size : Nat) (stored : List Byte) (s1 : σ),
    ops.read s size = .ok (stored, s1) → stored.length = size

/-- A loopback stream over a FIFO buffer `buf`: the raw write appends the given
bytes to the buffer, the raw read removes exactly the requested number of
bytes from its front. -/
structure IsLoopback {σ : Type} (ops : StreamOps σ) (buf : σ → List Byte) : Prop where
  /-- Raw write appends the `size` bytes at `data`. -/
  write_appends : ∀ (s : σ) (data : List Byte) (size : Nat),
    ∃ s1, ops.write s data size = .ok s1 ∧ buf s1 = buf s ++ data.take size
  /-- Raw read removes `size` bytes from the front, when they are there. -/
  read_removes : ∀ (s : σ) (size : Nat), size ≤ (buf s).length →
    ∃ s1, ops.read s size = .ok ((buf s).take size, s1) ∧ buf s1 = (buf s).drop size

/-- The exception a stream throws when the end of input is reached before the
requested bytes are available. -/
def connectionLost : DashelException :=
  { source := Source.ConnectionLost, sysError := 0, sysMessage := "",
    reason := "end of input", stream := none }

/-- A concrete loopback test stream whose state is the FIFO buffer itself; a
read of more bytes than the buffer holds fails with `ConnectionLost`. -/
def loopbackOps : StreamOps (List Byte) where
  write buf data size := .ok (buf ++ data.take size)
  flush buf := .ok buf
  read buf size :=
    if size ≤ buf.length then .ok (buf.take size, buf.drop size)
    else .error connectionLost

/-! ## The `Hub` -/

/-- Data members of `Hub`. `hTerminate` ("set when this thing goes down") is
modelled by whether the termination token is set; `std::set<Stream*>` is a
finite set of stream identities. -/
structure Hub where
  /-- Set when this thing goes down. -/
  hTerminate : Bool
  /-- All our streams. -/
  streams : Finset StreamPtr
  /-- All our streams that transfer data (in opposition to streams that just
  listen for data). -/
  dataStreams : Finset StreamPtr

/-- An observable event of a run of the Hub: the invocation of one of the three
extension points, a call of `stop()`, the observation of an external
termination request, or a failure the Hub detected on a stream. -/
inductive Event where
  | connectionCreated (stream : StreamPtr)
  | incomingData (stream : StreamPtr)
  | connectionClosed (stream : StreamPtr) (abnormal : Bool)
  | stop
  /-- An external termination request was observed by the wait of a cycle. -/
  | terminationObserved
  /-- The Hub detected a failure of cause `source` on `stream` and recorded it
  on the stream. -/
  | failure (stream : StreamPtr) (source : Source)
  deriving DecidableEq, Repr

/-- The program state around a Hub: the Hub itself, the live stream objects
(`none` once deleted), the members `app` a sub-class of `Hub` adds, and two
pieces of bookkeeping: `unread`, the streams whose last `incomingData` made no
read progress, and `log`, the history of events (ghost state, used only to
count invocations). -/
structure World (α : Type) where
  /-- The Hub object. -/
  hub : Hub
  /-- The live stream objects. -/
  heap : StreamPtr → Option Stream
  /-- Streams whose last `incomingData` did not read. -/
  unread : Finset StreamPtr
  /-- State of the sub-class. -/
  app : α
  /-- History of events, oldest first. -/
  log : List Event

/-- An operation on the Hub or on a stream performed by the body of an
extension point. -/
inductive Action where
  /-- Calls `stop()`. -/
  | stop
  /-- Calls `closeStream(stream)`. -/
  | closeStream (stream : StreamPtr)
  /-- Reads from `stream` (consumes some of its available bytes). -/
  | read (stream : StreamPtr)
  /-- Throws (for instance from a failing read or write). -/
  | throw (e : DashelException)
  deriving DecidableEq, Repr

/-- What the body of an extension point does: the new state of the sub-class
and the operations it performs, in order. -/
structure Body (α : Type) where
  /-- The members of the sub-class after the body. -/
  app : α
  /-- The operations performed, in order. -/
  actions : List Action

/-- Default `virtual void connectionCreated(Stream *stream) { }`: empty body. -/
def Hub.connectionCreated {α : Type} (w : World α) (_stream : StreamPtr) : Body α :=
  { app := w.app, actions := [] }

/-- Default `virtual void incomingData(Stream *stream) { }`: empty body. -/
def Hub.incomingData {α : Type} (w : World α) (_stream : StreamPtr) : Body α :=
  { app := w.app, actions := [] }

/-- Default `virtual void connectionClosed(Stream *stream, bool abnormal) { }`:
empty body. -/
def Hub.connectionClosed {α : Type} (w : World α) (_stream : StreamPtr) (_abnormal : Bool) :
    Body α :=
  { app := w.app, actions := [] }

/-- Modelled from the spec: the body of `Hub::stop()`, declared in `dashel.h`
and defined outside it. "`stop()`: sets the cancellation flag". The call is
recorded in the history. -/
def Hub.stop {α : Type} (w : World α) : World α :=
  { w with hub := { w.hub with hTerminate := true }, log := w.log ++ [Event.stop] }

/-- Modelled from the spec: the body of `Hub::closeStream(Stream*)`, declared
in `dashel.h` and defined outside it. "`closeStream(stream)`: removes the
stream from both owned collections and destroys it; does not invoke
`connectionClosed`"; "if the stream is not present in the Hub, it is deleted
nevertheless". -/
def Hub.closeStream {α : Type} (w : World α) (stream : StreamPtr) : World α :=
  { w with
    hub := { w.hub with
      streams := w.hub.streams.erase stream
      dataStreams := w.hub.dataStreams.erase stream }
    heap := fun p => if p = stream then none else w.heap p }

/-- Number of invocations of `connectionClosed` in a history. -/
def connectionClosedCount (log : List Event) : Nat :=
  log.countP fun e =>
    match e with
    | .connectionClosed _ _ => true
    | _ => false

/-- Runs the operations of a body in order. A `throw` ends the run with that
exception, the effects of the operations before it being kept by the caller
through the state carried in the result. -/
def runActions {α : Type} (w : World α) : List Action → World α × Option DashelException
  | [] => (w, none)
  | .stop :: rest => runActions (Hub.stop w) rest
  | .closeStream s :: rest => runActions (Hub.closeStream w s) rest
  | .read s :: rest => runActions { w with unread := w.unread.erase s } rest
  | .throw e :: _ => (w, some e)

/-- Runs the body of an extension point in a program state: the sub-class state
is updated, then the operations are performed. -/
def runBody {α : Type} (w : World α) (b : Body α) : World α × Option DashelException :=
  runActions { w with app := b.app } b.actions

/-! ### One polling cycle -/

/-- Modelled from the spec: the constructor `Hub()`, declared in `dashel.h` and
defined outside it: no stream is owned and the termination token is not
set. -/
def Hub.new : Hub := { hTerminate := false, streams := ∅, dataStreams := ∅ }

/-- The program state right after the construction of a Hub whose sub-class
state is `app`: no stream object, an empty history. -/
def World.initial {α : Type} (app : α) : World α :=
  { hub := Hub.new, heap := fun _ => none, unread := ∅, app := app, log := [] }

/-- The termination token tells the history: it is set exactly when `stop()`
was called or an external termination request was observed at some point of
the history. -/
def World.Consistent {α : Type} (w : World α) : Prop :=
  w.hub.hTerminate = true ↔ (Event.stop ∈ w.log ∨ Event.terminationObserved ∈ w.log)

/-- Modelled from the spec: the protocol tag of a target descriptor, a type of
the target parser, which is defined outside `dashel.h`: "one of File, Tcp,
Serial, Stdin, Stdout" (`file`, `tcp`, `ser`, `stdin`, `stdout` in a target
string). -/
inductive Protocol where
  | file
  | tcp
  | ser
  | stdin
  | stdout
  deriving DecidableEq, Repr

/-- Modelled from the spec: the name of a protocol in a target string (table of
the target parser, defined outside `dashel.h`). -/
def Protocol.name : Protocol → String
  | .file => "file"
  | .tcp => "tcp"
  | .ser => "ser"
  | .stdin => "stdin"
  | .stdout => "stdout"

/-- Modelled from the spec: the protocol a name designates, if any (look-up of
the target parser, defined outside `dashel.h`); any other name is an
unrecognized protocol tag. -/
def Protocol.ofName (name : String) : Option Protocol :=
  if name = "file" then some .file
  else if name = "tcp" then some .tcp
  else if name = "ser" then some .ser
  else if name = "stdin" then some .stdin
  else if name = "stdout" then some .stdout
  else none

/-- Modelled from the spec: how the target parser (defined outside `dashel.h`)
validates the value of a parameter: "type validation (e.g. non-numeric
port/baud, unrecognized parity/flow-control token)". -/
inductive ParamType where
  /-- Any text. -/
  | text
  /-- A decimal number. -/
  | number
  /-- One of the listed tokens. -/
  | token (allowed : List String)
  deriving DecidableEq, Repr

/-- Modelled from the spec: a row of the parameter table of the target parser
(defined outside `dashel.h`): the key of a parameter, how its value is
validated, its default value if it has one, and whether it must be given when
it has no default. -/
structure ParamSpec where
  /-- The key of the parameter. -/
  key : String
  /-- The validation of its value. -/
  type : ParamType
  /-- The default value. -/
  default : Option String
  /-- Whether the parameter is required. -/
  required : Bool
  deriving DecidableEq, Repr

/-- Modelled from the spec: the table of parameters of the target parser, which
is defined outside `dashel.h` (the header documents it in "Targets Naming").
"Per-protocol parameter order and defaults: `file`: name (required), mode
(default: read); `tcp`: host (required), port (required); `ser`: device (no
default), port (default 1), baud (default 115200), stop (default 1), parity
(default none), fc (default none), bits (default 8); `stdin`, `stdout`: no
parameters." -/
def Protocol.params : Protocol → List ParamSpec
  | .file =>
    [ { key := "name", type := .text, default := none, required := true },
      { key := "mode", type := .token ["read", "write"], default := some "read",
        required := false } ]
  | .tcp =>
    [ { key := "host", type := .text, default := none, required := true },
      { key := "port", type := .number, default := none, required := true } ]
  | .ser =>
    [ { key := "device", type := .text, default := none, required := false },
      { key := "port", type := .number, default := some "1", required := false },
      { key := "baud", type := .number, default := some "115200", required := false },
      { key := "stop", type := .number, default := some "1", required := false },
      { key := "parity", type := .token ["none", "even", "odd"], default := some "none",
        required := false },
      { key := "fc", type := .token ["none", "hard"], default := some "none",
        required := false },
      { key := "bits", type := .number, default := some "8", required := false } ]
  | .stdin => []
  | .stdout => []

/-- The keys of the parameters of a protocol, in their predefined order. -/
def Protocol.keys (p : Protocol) : List String := p.params.map ParamSpec.key

/-- Modelled from the spec: a validated parameter value of a target descriptor
(type of the target parser, defined outside `dashel.h`). -/
inductive ParamValue where
  | text (s : String)
  | number (n : Nat)
  | token (s : String)
  deriving DecidableEq, Repr

/-- Modelled from the spec: the result type of the target parser, defined
outside `dashel.h`. "TargetDescriptor: protocol tag; an ordered,
per-protocol-defined list of named parameters with defaults": the protocol
and, for each parameter of the protocol in the predefined order, its validated
value (`none` for a parameter that was not given, is not required and has no
default). -/
structure TargetDescriptor where
  /-- The protocol tag. -/
  protocol : Protocol
  /-- The parameters, in the order of the protocol. -/
  params : List (String × Option ParamValue)
  deriving DecidableEq, Repr

/-- Modelled from the spec: the error of the target parser (defined outside
`dashel.h`): "fails with `InvalidTarget`"; the identity of the stream is
"absent for parse-time errors". -/
def invalidTarget (reason : String) : DashelException :=
  { source := Source.InvalidTarget, sysError := 0, sysMessage := "", reason := reason,
    stream := none }

/-- Splits a text at the first occurrence of `c`: what precedes it, and what
follows it (`none` when `c` does not occur). -/
def splitFirst (c : Char) : List Char → List Char × Option (List Char)
  | [] => ([], none)
  | x :: xs =>
    if x = c then ([], some xs)
    else (x :: (splitFirst c xs).1, (splitFirst c xs).2)

/-- Modelled from the spec: the splitting of a parameter list by the target
parser (defined outside `dashel.h`), "`[param1key=]param1value;...;
[paramNkey=]paramNvalue`": the `;`-separated parameters of the text that
follows `protocol:`; an empty text holds no parameter. -/
def segments (rest : List Char) : List (List Char) :=
  if rest = [] then [] else rest.splitOn ';'

/-- The value of a decimal digit. -/
def digitValue (c : Char) : Option Nat :=
  if 48 ≤ c.toNat ∧ c.toNat ≤ 57 then some (c.toNat - 48) else none

/-- Reads decimal digits after the number `acc` read so far. -/
def parseDigits (acc : Nat) : List Char → Option Nat
  | [] => some acc
  | c :: cs =>
    match digitValue c with
    | some d => parseDigits (acc * 10 + d) cs
    | none => none

/-- Modelled from the spec: the numeric validation of the target parser
(defined outside `dashel.h`): the number a text denotes, when it is a
non-empty sequence of decimal digits ("non-numeric port/baud" fails). -/
def parseNat (s : String) : Option Nat :=
  if s.data = [] then none else parseDigits 0 s.data

/-- The key-value pairs a target string gives, in the order it gives them. -/
abbrev ParameterSet := List (String × String)

/-- Modelled from the spec: the look-up of a parameter by the target parser
(defined outside `dashel.h`): the value given for `key`, the last one if there
are several. -/
def ParameterSet.get (ps : ParameterSet) (key : String) : Option String :=
  (ps.reverse.find? fun kv => kv.1 = key).map Prod.snd

/-- Modelled from the spec: the binding of the parameters of a target string,
part of the target parser, defined outside `dashel.h`. Syntax
"`protocol:[param1key=]param1value;...;[paramNkey=]paramNvalue`", values being
given "with a predefined order such that keys can be omitted"; it "fails with
`InvalidTarget` when [...] a positional (unkeyed) parameter appears after any
keyed parameter". `order` is the predefined order of the keys, `idx` the number
of positional parameters bound so far, `keyed` whether a keyed parameter has
been met. A positional value beyond the last parameter binds nothing. -/
def bindParams (order : List String) :
    List (List Char) → Nat → Bool → Except DashelException ParameterSet
  | [], _, _ => .ok []
  | seg :: rest, idx, keyed =>
    match splitFirst '=' seg with
    | (k, some v) =>
      match bindParams order rest idx true with
      | .ok ps => .ok ((String.mk k, String.mk v) :: ps)
      | .error e => .error e
    | (v, none) =>
      if keyed then
        .error (invalidTarget "positional parameter after a keyed parameter")
      else
        match bindParams order rest (idx + 1) false with
        | .ok ps =>
          match order[idx]? with
          | some k => .ok ((k, String.mk v) :: ps)
          | none => .ok ps
        | .error e => .error e

/-- Modelled from the spec: the validation of one parameter, part of the target
parser, defined outside `dashel.h`. It "fails with `InvalidTarget` when [...] a
parameter value fails type validation (e.g. non-numeric port/baud, unrecognized
parity/flow-control token); a required parameter is missing and has no
default". -/
def resolve (ps : ParameterSet) (spec : ParamSpec) :
    Except DashelException (String × Option ParamValue) :=
  match (ps.get spec.key).orElse (fun _ => spec.default) with
  | none =>
    if spec.required then .error (invalidTarget "missing required parameter")
    else .ok (spec.key, none)
  | some raw =>
    match spec.type with
    | .text => .ok (spec.key, some (.text raw))
    | .number =>
      match parseNat raw with
      | some n => .ok (spec.key, some (.number n))
      | none => .error (invalidTarget "parameter is not a number")
    | .token allowed =>
      if raw ∈ allowed then .ok (spec.key, some (.token raw))
      else .error (invalidTarget "unrecognized parameter value")

/-- Modelled from the spec: the validation of all the parameters of a protocol
by the target parser (defined outside `dashel.h`), in the order of the table;
the first failure is the result. -/
def resolveAll (ps : ParameterSet) : List ParamSpec →
    Except DashelException (List (String × Option ParamValue))
  | [] => .ok []
  | spec :: rest =>
    match resolve ps spec with
    | .error e => .error e
    | .ok v =>
      match resolveAll ps rest with
      | .error e => .error e
      | .ok vs => .ok (v :: vs)

/-- Modelled from the spec: the target parser `parse(text) -> TargetDescriptor`,
defined outside `dashel.h`. The protocol is what precedes the first `:`; it
"fails with `InvalidTarget` when: protocol tag unrecognized; a positional
(unkeyed) parameter appears after any keyed parameter; a parameter value fails
type validation; a required parameter is missing and has no default". -/
def parse (text : String) : Except DashelException TargetDescriptor :=
  match Protocol.ofName (String.mk (splitFirst ':' text.data).1) with
  | none => .error (invalidTarget "unknown protocol")
  | some p =>
    match bindParams p.keys (segments ((splitFirst ':' text.data).2.getD [])) 0
        false with
    | .error e => .error e
    | .ok ps =>
      match resolveAll ps p.params with
      | .error e => .error e
      | .ok vals => .ok { protocol := p, params := vals }

/-- The text of a parameter list: the parameters separated by `;`. -/
def joinSegments (segs : List String) : String :=
  String.mk ([';'].intercalate (segs.map String.data))

/-- The target string `protocol:param1;...;paramN`. -/
def render (protocol : String) (segs : List String) : String :=
  protocol ++ ":" ++ joinSegments segs

/-- The keyed parameter `key=value`. -/
def keyedParam (key value : String) : String := key ++ "=" ++ value

/-- A text that can stand as a positional parameter of a target string: it
holds no `;` (which would end the parameter) and no `=` (which would make it a
keyed parameter). -/
def Plain (s : String) : Prop := ';' ∉ s.data ∧ '=' ∉ s.data

end Dashel

namespace Dashel

/-! ## Properties -/

/-- C9: the error cause type has exactly nine pairwise-distinct categories, in
the order Unknown, SyncError, InvalidTarget, InvalidOperation, ConnectionLost,
IOError, ConnectionFailed, EnumerationError, PreviousIncomingDataNotRead, with
numeric values 0 through 8 (the positions in the declaration), and no other
cause exists. -/
theorem source_taxonomy :
    Source.all = [Source.Unknown, Source.SyncError, Source.InvalidTarget,
      Source.InvalidOperation, Source.ConnectionLost, Source.IOError,
      Source.ConnectionFailed, Source.EnumerationError,
      Source.PreviousIncomingDataNotRead]
    ∧ Source.all.length = 9
    ∧ Source.all.Nodup
    ∧ (∀ s : Source, s ∈ Source.all)
    ∧ Source.all.map Source.toNat = [0, 1, 2, 3, 4, 5, 6, 7, 8]
    ∧ (∀ s t : Source, s.toNat = t.toNat → s = t)
    ∧ (∀ s : Source, s.toNat ≤ 8)
    ∧ (∀ s : Source, s.toNat = s.toCtorIdx) := by
  refine ⟨rfl, rfl, by decide, ?_, rfl, ?_, ?_, ?_⟩
  · intro s; cases s <;> decide
  · intro s t; cases s <;> cases t <;> decide
  · intro s; cases s <;> decide
  · intro s; cases s <;> rfl

/-- C3: for every target name `n`, a stream freshly constructed with `n` is not
failed: `failed()` returns false and `getFailReason()` returns the empty
string (and `getTargetName()` returns `n`). -/
theorem fresh_stream_not_failed (n : String) :
    (Stream.new n).failed = false
    ∧ (Stream.new n).getFailReason = ""
    ∧ (Stream.new n).getTargetName = n := by
  exact ⟨rfl, rfl, rfl⟩

end Dashel

namespace Dashel

theorem loopbackOps_isLoopback : IsLoopback loopbackOps id := by
  constructor
  · intro s data size
    exact ⟨_, rfl, rfl⟩
  · intro s size h
    have h2 : size ≤ s.length := h
    refine ⟨List.drop size s, ?_, rfl⟩
    simp [loopbackOps, h2]

theorem store_full (old stored : List Byte) (h : stored.length = old.length) :
    store old stored = stored := by
  unfold store
  rw [h, List.drop_length, List.append_nil, ← h, List.take_length]

/-- C2: for every fixed-width type `T` (of size `n`) and every value `v` of
`T`, the typed helper `write<T>(v)` performs exactly one call of the raw
`write(data, size)`, with `size = sizeof(T)` and `data` the unmodified bytes of
`v` in memory order; its outcome is the outcome of that raw call. -/
theorem writeT_single_raw_write {σ : Type} (ops : StreamOps σ) (n : Nat) (s : σ) (v : Obj n) :
    (Stream.writeT ops s v).calls = [RawCall.write v.bytes n]
    ∧ v.bytes.length = n
    ∧ (Stream.writeT ops s v).result = ops.write s v.bytes n :=
  ⟨rfl, v.size_eq, rfl⟩

theorem loopbackOps_contract : RawReadContract loopbackOps := by
  intro s size stored s1 h
  unfold loopbackOps at h
  by_cases hs : size ≤ s.length
  · simp only [hs, if_true, Except.ok.injEq, Prod.mk.injEq] at h
    rw [← h.1, List.length_take]
    omega
  · simp [hs] at h

theorem Obj.eq_of_bytes {n : Nat} (a b : Obj n) (h : a.bytes = b.bytes) : a = b := by
  cases a; cases b; cases h; rfl

theorem copyValueFrom_getElem? (pad : Padding) :
    ∀ (src dst : List Byte) (i k : Nat), src.length = dst.length → pad (i + k) = false →
      (copyValueFrom pad i src dst)[k]? = src[k]?
  | [], _, _, _, _, _ => by simp [copyValueFrom]
  | _ :: _, [], _, _, h, _ => by cases h
  | a :: src, b :: dst, i, 0, _, hp => by
    have hp0 : pad i = false := by simpa using hp
    simp [copyValueFrom, hp0]
  | a :: src, b :: dst, i, k + 1, h, hp => by
    have hp1 : pad (i + 1 + k) = false := by
      rw [← hp]
      congr 1
      omega
    simp only [copyValueFrom, List.getElem?_cons_succ]
    exact copyValueFrom_getElem? pad src dst (i + 1) k (by simpa using h) hp1

theorem copyValueFrom_eq_src (pad : Padding) :
    ∀ (src dst : List Byte) (i : Nat), src.length = dst.length →
      (∀ k, k < src.length → pad (i + k) = false) → copyValueFrom pad i src dst = src
  | [], _, _, _, _ => by simp [copyValueFrom]
  | _ :: _, [], _, h, _ => by cases h
  | a :: src, b :: dst, i, h, hp => by
    have hp0 : pad i = false := by simpa using hp 0 (by simp)
    have hrest := copyValueFrom_eq_src pad src dst (i + 1) (by simpa using h)
      (fun k hk => by
        have := hp (k + 1) (by simpa using hk)
        rw [← this]
        congr 1
        omega)
    simp [copyValueFrom, hp0, hrest]

theorem Obj.copyValue_getElem? {n : Nat} (pad : Padding) (src dst : Obj n) (i : Nat)
    (hp : pad i = false) : (Obj.copyValue pad src dst).bytes[i]? = src.bytes[i]? := by
  have h := copyValueFrom_getElem? pad src.bytes dst.bytes 0 i
    (by rw [src.size_eq, dst.size_eq]) (by simpa using hp)
  exact h

theorem Obj.copyValue_of_noPadding {n : Nat} (pad : Padding) (src dst : Obj n)
    (hp : ∀ i, i < n → pad i = false) : (Obj.copyValue pad src dst).bytes = src.bytes := by
  apply copyValueFrom_eq_src pad src.bytes dst.bytes 0 (by rw [src.size_eq, dst.size_eq])
  intro k hk
  rw [Nat.zero_add]
  exact hp k (by rw [← src.size_eq]; exact hk)

/-- C10: for every fixed-width type `T` (of size `n`) and every stream whose
raw read honours its contract, `read<T>()` performs exactly one raw read, of
exactly `sizeof(T)` bytes; if that raw read fails, `read<T>()` fails with the
same error (and returns no value); it fails in no other case; and when it
returns a value the raw read returned normally having filled all `sizeof(T)`
bytes: the value returned is the object so filled, returned by value (its
value bytes are the bytes read; all its bytes are, for a type without
padding). -/
theorem readT_single_raw_read {σ : Type} (ops : StreamOps σ) (hc : RawReadContract ops)
    (pad : Padding) (n : Nat) (s : σ) (uninit ret : Obj n) :
    (Stream.readT ops pad s uninit ret).calls = [RawCall.read n]
    ∧ (∀ e, ops.read s n = .error e → (Stream.readT ops pad s uninit ret).result = .error e)
    ∧ (∀ e, (Stream.readT ops pad s uninit ret).result = .error e → ops.read s n = .error e)
    ∧ (∀ v s1, (Stream.readT ops pad s uninit ret).result = .ok (v, s1) →
        ∃ stored, ops.read s n = .ok (stored, s1) ∧ stored.length = n
          ∧ (∀ i, pad i = false → v.bytes[i]? = stored[i]?)
          ∧ ((∀ i, i < n → pad i = false) → v.bytes = stored)) := by
  refine ⟨rfl, ?_, ?_, ?_⟩
  · intro e he
    simp only [Stream.readT, Stream.read, he]
  · intro e he
    simp only [Stream.readT, Stream.read] at he
    cases hr : ops.read s n with
    | error e1 =>
      rw [hr] at he
      simp only [Except.error.injEq] at he
      rw [he]
    | ok p =>
      rw [hr] at he
      cases he
  · intro v s1 hv
    simp only [Stream.readT, Stream.read] at hv
    cases hr : ops.read s n with
    | error e1 =>
      rw [hr] at hv
      cases hv
    | ok p =>
      obtain ⟨stored, s2⟩ := p
      rw [hr] at hv
      simp only [Except.ok.injEq, Prod.mk.injEq] at hv
      have hlen : stored.length = n := hc s n stored s2 hr
      have hfull : (uninit.store stored).bytes = stored :=
        store_full uninit.bytes stored (by rw [hlen, uninit.size_eq])
      refine ⟨stored, ?_, hlen, ?_, ?_⟩
      · rw [← hv.2]
      · intro i hi
        rw [← hv.1, Obj.copyValue_getElem? pad _ _ i hi, hfull]
      · intro hp
        rw [← hv.1, Obj.copyValue_of_noPadding pad _ _ hp, hfull]

/-- Witness of C10 on the loopback stream holding one byte, for a two-byte
type: one raw read of two bytes, failing with `ConnectionLost`. -/
theorem readT_single_raw_read_witness :
    RawReadContract loopbackOps
    ∧ (Stream.readT loopbackOps noPadding [7] (Obj.mk [0, 0] rfl : Obj 2)
        (Obj.mk [0, 0] rfl)).calls = [RawCall.read 2]
    ∧ (Stream.readT loopbackOps noPadding [7] (Obj.mk [0, 0] rfl : Obj 2)
        (Obj.mk [0, 0] rfl)).result = .error connectionLost :=
  ⟨loopbackOps_contract,
   (readT_single_raw_read loopbackOps loopbackOps_contract noPadding 2 [7]
      (Obj.mk [0, 0] rfl) (Obj.mk [0, 0] rfl)).1,
   (readT_single_raw_read loopbackOps loopbackOps_contract noPadding 2 [7]
      (Obj.mk [0, 0] rfl) (Obj.mk [0, 0] rfl)).2.1 connectionLost rfl⟩

/-- C1, as amended: for every fixed-width plain-data type `T` (of size `n`,
with padding `pad`) and every value `v` of `T`, on a loopback stream whose
buffer is initially empty, `write<T>(v)` followed by `read<T>()` returns
normally and leaves the buffer empty; every byte of the value returned that is
not a padding byte equals the byte of `v` at the same offset; hence, for a type
without padding bytes, the value returned has the representation of `v`, byte
for byte. -/
theorem write_read_loopback {σ : Type} (ops : StreamOps σ) (buf : σ → List Byte)
    (hl : IsLoopback ops buf) (pad : Padding) (n : Nat) (v param uninit ret : Obj n) (s0 : σ)
    (h0 : buf s0 = []) :
    ∃ s1 s2 r, (Stream.callWriteT ops pad s0 v param).result = .ok s1
      ∧ (Stream.readT ops pad s1 uninit ret).result = .ok (r, s2)
      ∧ buf s2 = []
      ∧ (∀ i, pad i = false → r.bytes[i]? = v.bytes[i]?)
      ∧ ((∀ i, i < n → pad i = false) → r.bytes = v.bytes ∧ r = v) := by
  obtain ⟨s1, hw, hb1⟩ := hl.write_appends s0 (Obj.copyValue pad v param).bytes n
  have hsz := (Obj.copyValue pad v param).size_eq
  have hfull : buf s1 = (Obj.copyValue pad v param).bytes := by
    rw [hb1, h0, List.nil_append]
    exact List.take_of_length_le (le_of_eq hsz)
  have hle : n ≤ (buf s1).length := by rw [hfull, hsz]
  obtain ⟨s2, hr, hb2⟩ := hl.read_removes s1 n hle
  have htake : (buf s1).take n = (Obj.copyValue pad v param).bytes := by
    rw [hfull]
    exact List.take_of_length_le (le_of_eq hsz)
  have hlocal : (uninit.store ((buf s1).take n)).bytes = (Obj.copyValue pad v param).bytes := by
    rw [htake]
    exact store_full uninit.bytes _ (by rw [hsz, uninit.size_eq])
  refine ⟨s1, s2, Obj.copyValue pad (uninit.store ((buf s1).take n)) ret, hw, ?_, ?_, ?_, ?_⟩
  · simp only [Stream.readT, Stream.read, hr]
  · rw [hb2, hfull]
    exact List.drop_of_length_le (le_of_eq hsz)
  · intro i hi
    rw [Obj.copyValue_getElem? pad _ _ i hi, hlocal, Obj.copyValue_getElem? pad _ _ i hi]
  · intro hp
    have hb : (Obj.copyValue pad (uninit.store ((buf s1).take n)) ret).bytes = v.bytes := by
      rw [Obj.copyValue_of_noPadding pad _ _ hp, hlocal, Obj.copyValue_of_noPadding pad _ _ hp]
    exact ⟨hb, Obj.eq_of_bytes _ _ hb⟩

/-- Witness of C1: the two-byte value `34 12` (hexadecimal) of a type without
padding through the concrete loopback stream, the memory of the parameter, of
the local and of the result holding `ff ff` beforehand. -/
theorem write_read_loopback_witness :
    IsLoopback loopbackOps id ∧ (id ([] : List Byte) = [])
    ∧ ∃ s1 s2 r,
      (Stream.callWriteT loopbackOps noPadding [] (Obj.mk [0x34, 0x12] rfl : Obj 2)
        (Obj.mk [0xff, 0xff] rfl)).result = .ok s1
      ∧ (Stream.readT loopbackOps noPadding s1 (Obj.mk [0xff, 0xff] rfl : Obj 2)
        (Obj.mk [0xff, 0xff] rfl)).result = .ok (r, s2)
      ∧ id s2 = []
      ∧ (∀ i, noPadding i = false → r.bytes[i]? = [0x34, 0x12][i]?)
      ∧ ((∀ i, i < 2 → noPadding i = false)
          → r.bytes = [0x34, 0x12] ∧ r = Obj.mk [0x34, 0x12] rfl) :=
  ⟨loopbackOps_isLoopback, rfl,
   write_read_loopback loopbackOps id loopbackOps_isLoopback noPadding 2
     (Obj.mk [0x34, 0x12] rfl) (Obj.mk [0xff, 0xff] rfl) (Obj.mk [0xff, 0xff] rfl)
     (Obj.mk [0xff, 0xff] rfl) [] rfl⟩

/-- C1 as stated fails for a type with padding bytes: a `long double` of 16
bytes, of which bytes 10 to 15 are padding, written with `write<T>` to the
loopback stream and read back with `read<T>()`, the memory of the parameter
and of the result being zeroed beforehand. The ten value bytes come back; the
six padding bytes `aa` of the original do not, so the representation of the
value returned differs from that of the value written. -/
theorem write_read_loopback_padding_lost :
    (Stream.callWriteT loopbackOps longDoublePadding [] sampleLongDouble zeroed16).result
      = .ok [1, 2, 3, 4, 5, 6, 7, 8, 9, 10, 0, 0, 0, 0, 0, 0]
    ∧ ∃ r, (Stream.readT loopbackOps longDoublePadding
          [1, 2, 3, 4, 5, 6, 7, 8, 9, 10, 0, 0, 0, 0, 0, 0] zeroed16 zeroed16).result
        = .ok (r, [])
      ∧ r.bytes = [1, 2, 3, 4, 5, 6, 7, 8, 9, 10, 0, 0, 0, 0, 0, 0]
      ∧ r.bytes ≠ sampleLongDouble.bytes :=
  ⟨rfl, Obj.copyValue longDoublePadding
      (zeroed16.store [1, 2, 3, 4, 5, 6, 7, 8, 9, 10, 0, 0, 0, 0, 0, 0]) zeroed16,
    rfl, rfl, by decide⟩

/-- C8: the default implementations of `connectionCreated(stream)`,
`incomingData(stream)` and `connectionClosed(stream, abnormal)` are no-ops:
in every program state, for every stream and every value of `abnormal`, running
the body raises no error and leaves the whole state unchanged, in particular
the stream collections of the Hub, its termination state and the state of the
stream. -/
theorem default_extension_points_noop {α : Type} (w : World α) (stream : StreamPtr)
    (abnormal : Bool) :
    runBody w (Hub.connectionCreated w stream) = (w, none)
    ∧ runBody w (Hub.incomingData w stream) = (w, none)
    ∧ runBody w (Hub.connectionClosed w stream abnormal) = (w, none)
    ∧ (∀ b ∈ [Hub.connectionCreated w stream, Hub.incomingData w stream,
          Hub.connectionClosed w stream abnormal],
        (runBody w b).2 = none
        ∧ (runBody w b).1.hub.streams = w.hub.streams
        ∧ (runBody w b).1.hub.dataStreams = w.hub.dataStreams
        ∧ (runBody w b).1.hub.hTerminate = w.hub.hTerminate
        ∧ (runBody w b).1.heap stream = w.heap stream) := by
  refine ⟨rfl, rfl, rfl, ?_⟩
  intro b hb
  simp only [List.mem_cons, List.mem_singleton, List.not_mem_nil, or_false] at hb
  rcases hb with rfl | rfl | rfl <;> exact ⟨rfl, rfl, rfl, rfl, rfl⟩

/-- C4: in every Hub state and for every stream `s`, `closeStream(s)` removes
`s` from both owned collections (all streams and data streams), keeps every
other stream where it was, destroys `s`, and does not invoke
`connectionClosed`: the history
of events, hence the number of `connectionClosed` invocations, is the same
before and after the call. -/
theorem closeStream_removes_without_callback {α : Type} (w : World α) (s : StreamPtr) :
    s ∉ (Hub.closeStream w s).hub.streams
    ∧ s ∉ (Hub.closeStream w s).hub.dataStreams
    ∧ (∀ t, t ≠ s → (t ∈ (Hub.closeStream w s).hub.streams ↔ t ∈ w.hub.streams))
    ∧ (∀ t, t ≠ s → (t ∈ (Hub.closeStream w s).hub.dataStreams ↔ t ∈ w.hub.dataStreams))
    ∧ (Hub.closeStream w s).heap s = none
    ∧ (Hub.closeStream w s).log = w.log
    ∧ connectionClosedCount (Hub.closeStream w s).log = connectionClosedCount w.log := by
  refine ⟨?_, ?_, ?_, ?_, ?_, rfl, rfl⟩
  · simp [Hub.closeStream]
  · simp [Hub.closeStream]
  · intro t ht
    simp [Hub.closeStream, ht]
  · intro t ht
    simp [Hub.closeStream, ht]
  · simp [Hub.closeStream]

/-! ### The result of a polling cycle -/

theorem World.initial_consistent {α : Type} (app : α) : (World.initial app).Consistent := by
  simp [World.Consistent, World.initial, Hub.new]

theorem Hub.stop_consistent {α : Type} (w : World α) (_hc : w.Consistent) :
    (Hub.stop w).Consistent := by
  simp [World.Consistent, Hub.stop]

theorem Hub.closeStream_consistent {α : Type} (w : World α) (s : StreamPtr)
    (hc : w.Consistent) : (Hub.closeStream w s).Consistent := hc

theorem splitFirst_of_not_mem (c : Char) (a : List Char) (h : c ∉ a) :
    splitFirst c a = (a, none) := by
  induction a with
  | nil => rfl
  | cons x xs ih =>
    have hx : x ≠ c := fun hxc => h (by simp [hxc])
    have hxs : c ∉ xs := fun hm => h (List.mem_cons_of_mem _ hm)
    simp only [splitFirst, hx, if_false, ih hxs]

theorem splitFirst_append (c : Char) (a b : List Char) (h : c ∉ a) :
    splitFirst c (a ++ c :: b) = (a, some b) := by
  induction a with
  | nil => simp [splitFirst]
  | cons x xs ih =>
    have hx : x ≠ c := fun hxc => h (by simp [hxc])
    have hxs : c ∉ xs := fun hm => h (List.mem_cons_of_mem _ hm)
    rw [List.cons_append, splitFirst, if_neg hx, ih hxs]

theorem splitFirst_of_mem (c : Char) (a : List Char) (h : c ∈ a) :
    ∃ k v, splitFirst c a = (k, some v) := by
  induction a with
  | nil => cases h
  | cons x xs ih =>
    by_cases hx : x = c
    · exact ⟨[], xs, by simp [splitFirst, hx]⟩
    · have hxs : c ∈ xs := by
        rcases List.mem_cons.mp h with h1 | h1
        · exact absurd h1.symm hx
        · exact h1
      obtain ⟨k, v, hkv⟩ := ih hxs
      exact ⟨x :: k, v, by simp [splitFirst, hx, hkv]⟩

theorem segments_intercalate (ls : List (List Char))
    (hx : ∀ l ∈ ls, ';' ∉ l) (hne : ls ≠ [[]]) :
    segments ([';'].intercalate ls) = ls := by
  by_cases hnil : ls = []
  · subst hnil
    rfl
  · have hsplit := List.splitOn_intercalate ls ';' hx hnil
    unfold segments
    by_cases hemp : [';'].intercalate ls = []
    · rw [hemp] at hsplit
      exact absurd hsplit.symm hne
    · rw [if_neg hemp]
      exact hsplit

theorem render_data (proto : String) (segs : List String) :
    (render proto segs).data
      = proto.data ++ ':' :: [';'].intercalate (segs.map String.data) := by
  simp only [render, joinSegments, String.data_append]
  simp

theorem bindParams_error_after_key (order : List String) (segs : List (List Char)) :
    ∀ (idx : Nat), (∃ b ∈ segs, '=' ∉ b) →
      ∃ e, bindParams order segs idx true = .error e ∧ e.source = Source.InvalidTarget := by
  induction segs with
  | nil =>
    intro idx h
    obtain ⟨b, hb, _⟩ := h
    cases hb
  | cons seg rest ih =>
    intro idx h
    by_cases hseg : '=' ∈ seg
    · obtain ⟨k, v, hkv⟩ := splitFirst_of_mem _ seg hseg
      have hrest : ∃ b ∈ rest, '=' ∉ b := by
        obtain ⟨b, hb, hbn⟩ := h
        rcases List.mem_cons.mp hb with h1 | h1
        · subst h1
          exact absurd hseg hbn
        · exact ⟨b, h1, hbn⟩
      obtain ⟨e, he, hsrc⟩ := ih idx hrest
      refine ⟨e, ?_, hsrc⟩
      simp only [bindParams, hkv, he]
    · refine ⟨invalidTarget "positional parameter after a keyed parameter", ?_, rfl⟩
      simp only [bindParams, splitFirst_of_not_mem _ seg hseg, if_true]

theorem bindParams_error_of_positional_after_keyed (order : List String)
    (pre : List (List Char)) (a b : List Char) (mid post : List (List Char))
    (ha : '=' ∈ a) (hb : '=' ∉ b) :
    ∀ (idx : Nat) (keyed : Bool),
      ∃ e, bindParams order (pre ++ a :: (mid ++ b :: post)) idx keyed = .error e
        ∧ e.source = Source.InvalidTarget := by
  induction pre with
  | nil =>
    intro idx keyed
    obtain ⟨k, v, hkv⟩ := splitFirst_of_mem _ a ha
    obtain ⟨e, he, hsrc⟩ := bindParams_error_after_key order (mid ++ b :: post) idx
      ⟨b, by simp, hb⟩
    refine ⟨e, ?_, hsrc⟩
    simp only [List.nil_append, bindParams, hkv, he]
  | cons seg rest ih =>
    intro idx keyed
    by_cases hseg : '=' ∈ seg
    · obtain ⟨k, v, hkv⟩ := splitFirst_of_mem _ seg hseg
      obtain ⟨e, he, hsrc⟩ := ih idx true
      refine ⟨e, ?_, hsrc⟩
      simp only [List.cons_append, bindParams, hkv, List.append_eq, he]
    · cases keyed with
      | true =>
        refine ⟨invalidTarget "positional parameter after a keyed parameter", ?_, rfl⟩
        simp only [List.cons_append, bindParams, splitFirst_of_not_mem _ seg hseg, if_true]
      | false =>
        obtain ⟨e, he, hsrc⟩ := ih (idx + 1) false
        refine ⟨e, ?_, hsrc⟩
        simp only [List.cons_append, bindParams, splitFirst_of_not_mem _ seg hseg,
          List.append_eq, he]
        simp

/-- C6: every target string in which a positional (unkeyed) parameter `b`
appears after a keyed parameter `a` fails to parse, with cause
`InvalidTarget`. The target string is `proto:p1;...;pN`, its parameters being
`pre`, then `a`, then `mid`, then `b`, then `post`. -/
theorem positional_after_keyed_invalid (proto : String) (pre mid post : List String)
    (a b : String)
    (hproto : ':' ∉ proto.data)
    (hsegs : ∀ s ∈ pre ++ a :: (mid ++ b :: post), ';' ∉ s.data)
    (ha : '=' ∈ a.data) (hb : '=' ∉ b.data) :
    ∃ e, parse (render proto (pre ++ a :: (mid ++ b :: post))) = .error e
      ∧ e.source = Source.InvalidTarget := by
  have hx : ∀ l ∈ (pre ++ a :: (mid ++ b :: post)).map String.data, ';' ∉ l := by
    intro l hl
    obtain ⟨s, hs, rfl⟩ := List.mem_map.mp hl
    exact hsegs s hs
  have hne : (pre ++ a :: (mid ++ b :: post)).map String.data ≠ [[]] := by
    intro hc
    have hlen := congrArg List.length hc
    simp at hlen
    omega
  have hseg := segments_intercalate _ hx hne
  unfold parse
  rw [render_data, splitFirst_append _ _ _ hproto]
  simp only [Option.getD_some, hseg]
  cases Protocol.ofName (String.mk proto.data) with
  | none => exact ⟨_, rfl, rfl⟩
  | some p =>
    obtain ⟨e, he, hsrc⟩ := bindParams_error_of_positional_after_keyed p.keys
      (pre.map String.data) a.data b.data (mid.map String.data) (post.map String.data)
      ha hb 0 false
    refine ⟨e, ?_, hsrc⟩
    simp only [List.map_append, List.map_cons, he]

/-- Witness of C6: `tcp:host=localhost;4242` is rejected with `InvalidTarget`. -/
theorem positional_after_keyed_invalid_witness :
    render "tcp" ([] ++ "host=localhost" :: ([] ++ "4242" :: [])) = "tcp:host=localhost;4242"
    ∧ ∃ e, parse (render "tcp" ([] ++ "host=localhost" :: ([] ++ "4242" :: []))) = .error e
      ∧ e.source = Source.InvalidTarget :=
  ⟨by decide,
   positional_after_keyed_invalid "tcp" [] [] [] "host=localhost" "4242"
     (by decide) (by decide) (by decide) (by decide)⟩

theorem keyedParam_data (k v : String) :
    (keyedParam k v).data = k.data ++ '=' :: v.data := by
  simp only [keyedParam, String.data_append]
  simp

theorem bindParams_positional (order : List String) (vs : List String) :
    ∀ (idx : Nat), (∀ v ∈ vs, '=' ∉ v.data) → idx + vs.length ≤ order.length →
      bindParams order (vs.map String.data) idx false = .ok (List.zip (order.drop idx) vs) := by
  induction vs with
  | nil =>
    intro idx _ _
    simp [bindParams]
  | cons v rest ih =>
    intro idx hv hlen
    have hlt : idx < order.length := by
      simp only [List.length_cons] at hlen
      omega
    have hrest := ih (idx + 1) (fun u hu => hv u (List.mem_cons_of_mem _ hu))
      (by simp only [List.length_cons] at hlen; omega)
    have hhead : '=' ∉ v.data := hv v (List.mem_cons_self _ _)
    simp only [List.map_cons, bindParams, splitFirst_of_not_mem _ _ hhead, hrest,
      List.getElem?_eq_getElem hlt]
    rw [List.drop_eq_getElem_cons hlt, List.zip_cons_cons]
    rfl

theorem bindParams_keyed (order : List String) (ks : List String) :
    ∀ (vs : List String) (idx : Nat) (flag : Bool), (∀ k ∈ ks, '=' ∉ k.data) →
      bindParams order ((List.zipWith keyedParam ks vs).map String.data) idx flag
        = .ok (List.zip ks vs) := by
  induction ks with
  | nil =>
    intro vs idx flag _
    simp [bindParams]
  | cons k rest ih =>
    intro vs idx flag hk
    cases vs with
    | nil => simp [bindParams]
    | cons v vrest =>
      have hrest := ih vrest idx true (fun u hu => hk u (List.mem_cons_of_mem _ hu))
      have hhead : '=' ∉ k.data := hk k (List.mem_cons_self _ _)
      simp only [List.zipWith_cons_cons, List.map_cons, bindParams, keyedParam_data,
        splitFirst_append _ _ _ hhead, hrest, List.zip_cons_cons]

theorem Protocol.ofName_name (p : Protocol) :
    Protocol.ofName (String.mk p.name.data) = some p := by
  cases p <;> rfl

theorem Protocol.name_no_colon (p : Protocol) : ':' ∉ p.name.data := by
  cases p <;> decide

theorem Protocol.keys_plain (p : Protocol) :
    ∀ k ∈ p.keys, ';' ∉ k.data ∧ '=' ∉ k.data := by
  cases p <;> decide

theorem parse_render (p : Protocol) (segs : List String)
    (hx : ∀ s ∈ segs, ';' ∉ s.data) (hne : segs ≠ [""]) :
    parse (render p.name segs)
      = match bindParams p.keys (segs.map String.data) 0 false with
        | .error e => .error e
        | .ok ps =>
          match resolveAll ps p.params with
          | .error e => .error e
          | .ok vals => .ok { protocol := p, params := vals } := by
  have hx1 : ∀ l ∈ segs.map String.data, ';' ∉ l := by
    intro l hl
    obtain ⟨s, hs, rfl⟩ := List.mem_map.mp hl
    exact hx s hs
  have hne1 : segs.map String.data ≠ [[]] := by
    intro hc
    apply hne
    cases segs with
    | nil => cases hc
    | cons s rest =>
      cases rest with
      | nil =>
        simp only [List.map_cons, List.map_nil, List.cons.injEq, and_true] at hc
        have hs : s = "" := String.ext hc
        rw [hs]
      | cons t u => simp at hc
  unfold parse
  rw [render_data, splitFirst_append _ _ _ (Protocol.name_no_colon p)]
  simp only [Option.getD_some, segments_intercalate _ hx1 hne1, Protocol.ofName_name]

theorem parse_keyed_eq_positional (p : Protocol) (vs : List String)
    (hlen : vs.length ≤ p.keys.length) (hv : ∀ v ∈ vs, Plain v) (hne : vs ≠ [""]) :
    parse (render p.name (List.zipWith keyedParam p.keys vs)) = parse (render p.name vs) := by
  have hkx : ∀ s ∈ List.zipWith keyedParam p.keys vs, ';' ∉ s.data := by
    intro s hs
    obtain ⟨i, hi, hget⟩ := List.getElem_of_mem hs
    rw [List.getElem_zipWith] at hget
    rw [← hget, keyedParam_data]
    simp only [List.mem_append, List.mem_cons, not_or]
    refine ⟨(Protocol.keys_plain p _ (List.getElem_mem _)).1, by decide,
      (hv _ (List.getElem_mem _)).1⟩
  have hkne : List.zipWith keyedParam p.keys vs ≠ [""] := by
    intro hc
    have hmem : "" ∈ List.zipWith keyedParam p.keys vs := by rw [hc]; simp
    obtain ⟨i, hi, hget⟩ := List.getElem_of_mem hmem
    rw [List.getElem_zipWith] at hget
    have hd := congrArg String.data hget
    rw [keyedParam_data] at hd
    simp at hd
  rw [parse_render p _ hkx hkne, parse_render p vs (fun s hs => (hv s hs).1) hne,
    bindParams_keyed p.keys p.keys vs 0 false (fun k hk => (Protocol.keys_plain p k hk).2),
    bindParams_positional p.keys vs 0 (fun v hv1 => (hv v hv1).2) (by omega)]
  rfl

theorem render_tcp_keyed (H P : String) :
    render Protocol.tcp.name (List.zipWith keyedParam Protocol.tcp.keys [H, P])
      = "tcp:host=" ++ H ++ ";port=" ++ P := by
  apply String.ext
  simp [render, joinSegments, keyedParam, Protocol.name, Protocol.keys, Protocol.params,
    List.intercalate, String.data_append]

theorem render_tcp_positional (H P : String) :
    render Protocol.tcp.name [H, P] = "tcp:" ++ H ++ ";" ++ P := by
  apply String.ext
  simp [render, joinSegments, Protocol.name, List.intercalate, String.data_append]

/-- C5: for every protocol `p` and every positional form `p:v1;...;vn` (values
for the first parameters of `p` in its predefined order, keys omitted), the
fully keyed form `p:k1=v1;...;kn=vn` and the positional form parse to the same
result: the same parameter set when the target is valid, the same failure
otherwise. That `p:v1;...;vn` is a positional form means that each `vi` is a
positional parameter (it holds no `;` and no `=`) and that the list is not the
lone empty value (`p:` is the form without any value). In particular, for all
positional parameters `H` and `P`, `tcp:host=H;port=P` and `tcp:H;P` parse to
equal results. -/
theorem keyed_positional_parse_equal (p : Protocol) (vs : List String)
    (hlen : vs.length ≤ p.keys.length) (hv : ∀ v ∈ vs, Plain v) (hne : vs ≠ [""]) :
    parse (render p.name (List.zipWith keyedParam p.keys vs)) = parse (render p.name vs)
    ∧ (∀ H P : String, Plain H → Plain P →
        parse ("tcp:host=" ++ H ++ ";port=" ++ P) = parse ("tcp:" ++ H ++ ";" ++ P)) := by
  refine ⟨parse_keyed_eq_positional p vs hlen hv hne, ?_⟩
  intro H P hH hP
  rw [← render_tcp_keyed, ← render_tcp_positional]
  apply parse_keyed_eq_positional
  · exact Nat.le_refl 2
  · intro v hv1
    simp only [List.mem_cons, List.mem_singleton, List.not_mem_nil, or_false] at hv1
    rcases hv1 with rfl | rfl
    · exact hH
    · exact hP
  · simp

/-- Witness of C5: `tcp:host=localhost;port=4242` and `tcp:localhost;4242` both
parse to the tcp target of host `localhost` and port 4242. -/
theorem keyed_positional_parse_equal_witness :
    render Protocol.tcp.name (List.zipWith keyedParam Protocol.tcp.keys ["localhost", "4242"])
      = "tcp:host=localhost;port=4242"
    ∧ render Protocol.tcp.name ["localhost", "4242"] = "tcp:localhost;4242"
    ∧ parse (render Protocol.tcp.name
        (List.zipWith keyedParam Protocol.tcp.keys ["localhost", "4242"]))
      = parse (render Protocol.tcp.name ["localhost", "4242"])
    ∧ parse "tcp:localhost;4242"
      = .ok { protocol := Protocol.tcp,
              params := [("host", some (ParamValue.text "localhost")),
                         ("port", some (ParamValue.number 4242))] } :=
  ⟨by decide, by decide,
   (keyed_positional_parse_equal Protocol.tcp ["localhost", "4242"] (by decide)
     (by
       intro v hv1
       simp only [List.mem_cons, List.mem_singleton, List.not_mem_nil, or_false] at hv1
       rcases hv1 with rfl | rfl <;> exact ⟨by decide, by decide⟩)
     (by decide)).1,
   rfl⟩

end Dashel
